import Mathlib

/-! Verification of the source-map decode pipeline.

Shallow embedding of `src/source_map_format.ts` and `src/infra/string.ts` from the
`source-map` repository (a TypeScript implementation of the TC39 Source Map
specification), together with theorems settling the frozen claims about it.

Conventions of the embedding:
* JavaScript strings are modelled as Lean `String`s / `List Char`; the relevant
  strings are ASCII, where UTF-16 code units and code points coincide.
* Mutable cursor positions (`PositionVariable` in the source) are modelled by
  explicit suffix passing or returned `Nat` positions.
* Functions that can `throw` return `Except Unit _`.
* JavaScript numbers are exact here; every reachable numeric value in the claims
  stays far below the 2^53 float-precision boundary.
* The WHATWG `URL.parse` and the `@miyauci/infra` `List`/`Map` collection classes
  are external collaborators (not part of this repository); URL parsing is passed
  in as a function `parse : String → Option String` (the `Option` result models
  parse failure, the `String` the serialized URL), and the JavaScript `in`
  operator applied to the external `List` class is passed in as an abstract
  relation `inOp` (see `decodeSourceMapSources`).
-/

namespace SourceMap

/-- Base64 value of a character, as `BASE64_ALPHABET[ch]` from `@miyauci/rfc4648`:
`A`–`Z` ↦ 0–25, `a`–`z` ↦ 26–51, `0`–`9` ↦ 52–61, `+` ↦ 62, `/` ↦ 63.
A character outside the alphabet yields `undefined` in JavaScript, which behaves
as `0` in every bitwise operation the decoder applies to it; it is mapped to `0`. -/
def b64Value (c : Char) : Nat :=
  if 'A' ≤ c ∧ c ≤ 'Z' then c.toNat - 65
  else if 'a' ≤ c ∧ c ≤ 'z' then c.toNat - 97 + 26
  else if '0' ≤ c ∧ c ≤ '9' then c.toNat - 48 + 52
  else if c = '+' then 62
  else if c = '/' then 63
  else 0

/-- The continuation loop of `decodeBase64VLQ` (source lines 626–648, steps 7.1–7.7):
while `currentByte & 0x20` is `0x20`, advance the position (here: consume the head
of the remaining suffix `rest`), throwing when the position passes the end of the
segment; add `(currentByte & 0x1F) * nextShift` to `value`; throw when `231 <= value`
(the source literally compares against `231`, the spec's `2^31` with the exponent
lost); multiply `nextShift` by 32.  Returns the accumulated value and the unconsumed
suffix. -/
def vlqLoop : List Char → Nat → Nat → Nat → Except Unit (Nat × List Char)
  | [], value, _, currentByte =>
    -- loop guard checked first; an iteration entered at the end of the segment throws
    if currentByte &&& 0x20 = 0x20 then .error () else .ok (value, [])
  | c :: rest', value, nextShift, currentByte =>
    if currentByte &&& 0x20 = 0x20 then
      let cb := b64Value c
      let chunk := cb &&& 0x1F
      let value' := value + chunk * nextShift
      if 231 ≤ value' then .error ()
      else vlqLoop rest' value' (nextShift * 32) cb
    else .ok (value, c :: rest')

/-- Embedding of `decodeBase64VLQ(segment, position)` (source lines 602–659).  The mutable
`position` is the `pos` argument; the returned `Nat` is its final value.
`.ok (none, pos)` models the `null` return when the position already points at the
end of the segment; `.error ()` models a thrown error. -/
def decodeBase64VLQ (segment : String) (pos : Nat) : Except Unit (Option Int × Nat) :=
  let cs := segment.data
  match cs.get? pos with
  | none => .ok (none, pos)
  | some ch =>
    let first := b64Value ch
    let sign : Int := if first &&& 0x01 = 0 then 1 else -1
    let value := (first >>> 1) &&& 0x0F
    let tail := cs.drop (pos + 1)
    match vlqLoop tail value 16 first with
    | .error _ => .error ()
    | .ok (v, remaining) =>
      -- the loop advanced the position once per consumed character, and step 8
      -- advances it once more
      let consumed := tail.length - remaining.length
      let finalPos := pos + consumed + 1
      if v = 0 ∧ sign = -1 then .ok (some (-2147483648), finalPos)
      else .ok (some (sign * (v : Int)), finalPos)

/-- Modelled from the spec: the repository contains no encoder ("encoding (the
inverse direction) is not covered"), so the base64-VLQ encoding is taken from the
spec's description (§4.1): bit 0 of the first character is the sign, bits 1–4 its
least-significant 4 value bits, bit 5 of every character a continuation flag, each
continuation character carrying 5 more value bits at the next power-of-32 place
value.  `encodeChunks` produces the continuation characters' byte values for the
remaining magnitude. -/
def encodeChunksF : Nat → Nat → List Nat
  | _, 0 => []
  | 0, _ + 1 => []
  | fuel + 1, m + 1 =>
    let m' := m + 1
    let chunk := m' &&& 0x1F
    let rest := m' >>> 5
    (if rest = 0 then chunk else chunk ||| 0x20) :: encodeChunksF fuel rest

/-- Fuel `m` always suffices: each chunk shifts the magnitude right by 5 bits. -/
def encodeChunks (m : Nat) : List Nat := encodeChunksF m m

/-- Character of a base64 byte value (inverse of `b64Value` on 0–63). -/
def b64Char (n : Nat) : Char :=
  if n < 26 then Char.ofNat (n + 65)
  else if n < 52 then Char.ofNat (n - 26 + 97)
  else if n < 62 then Char.ofNat (n - 52 + 48)
  else if n = 62 then '+'
  else '/'

/-- Modelled from the spec (§4.1, §8): the base64-VLQ encoding of an integer. -/
def encodeBase64VLQ (n : Int) : String :=
  let signBit : Nat := if n < 0 then 1 else 0
  let m := n.natAbs
  let firstByte :=
    ((m &&& 0x0F) <<< 1) ||| signBit ||| (if m ≥ 16 then 0x20 else 0)
  String.mk (b64Char firstByte :: (encodeChunks (m >>> 4)).map b64Char)

/-! ## Infra string operations (`src/infra/string.ts`) -/

/-- Embedding of `collectSequenceCodePoint(condition, input, position)` (infra string.ts
lines 53–73): collect code points while the condition holds and the position has not
passed the end of the input.  The cursor is modelled by suffix passing: the
function receives the suffix of `input` starting at `position` and returns the
collected result together with the unconsumed suffix. -/
def collectSequenceCodePoint (condition : Char → Bool) : List Char → List Char × List Char
  | [] => ([], [])
  | c :: rest =>
    if condition c then
      let (tok, rem) := collectSequenceCodePoint condition rest
      (c :: tok, rem)
    else ([], c :: rest)

/-- One iteration of the `while` loop of `strictlySplit` (infra string.ts lines
31–47), in suffix form.  The source's guard is `position.value <= endOfInput`
(one more than the Infra standard's "not past the end"), so the loop always runs
once more when the position sits exactly at the end of the input: it advances past
the end, collects the empty token and appends it.  In suffix form the loop is
entered with the suffix starting at the current position (whose head, when the
suffix is non-empty, is the delimiter being skipped); the empty suffix is that
final extra iteration.  The fuel argument only bounds the recursion; every
iteration consumes the skipped code point, so `length + 1` fuel suffices. -/
def splitLoop (delimiter : Char) : Nat → List Char → List String
  | _, [] => [""]
  | 0, _ :: _ => []
  | fuel + 1, _ :: rest =>
    -- step 2: advance position by 1 (skipping the delimiter), then step 3: collect
    let (token, rem) := collectSequenceCodePoint (fun c => c != delimiter) rest
    -- step 4: append token to tokens
    String.mk token :: splitLoop delimiter fuel rem

/-- Embedding of `strictlySplit(input, delimiter)` (infra string.ts lines 6–48).  The source
takes the delimiter as a string and compares it against single code points; the
claims only concern single-character delimiters, so the delimiter is a `Char`. -/
def strictlySplit (input : String) (delimiter : Char) : List String :=
  let (token, rem) := collectSequenceCodePoint (fun c => c != delimiter) input.data
  String.mk token :: splitLoop delimiter (input.data.length + 1) rem

/-- Embedding of `concatenate(list, separator)` (infra string.ts lines 78–92): joins the items
of a list of strings with the separator (`array.join(separator)`); the source's
`if (!array) return ""` branch is dead (a spread array is never falsy) and
`[].join(sep)` is `""`, which `String.intercalate` also yields on `[]`. -/
def concatenate (list : List String) (separator : String) : String :=
  String.intercalate separator list

/-- The JavaScript spread `[...s]` of a string: its code points as one-character
strings.  `decodeSourceMapSources` passes plain strings to `concatenate`, whose
`Iterable<string>` parameter then iterates them code point by code point. -/
def strToList (s : String) : List String :=
  s.data.map (fun c => String.mk [c])

/-- Embedding of `isAsciiString(input)` (infra string.ts lines 99–107): no UTF-16 code unit
above `0x7F`; equivalently (as used here) no code point above `0x7F`. -/
def isAsciiString (input : String) : Bool :=
  input.data.all (fun c => c.toNat ≤ 0x7F)

/-! ## Decoded data model (`src/source_map_format.ts`) -/

/-- A decoded source (source lines 168–183).  The URL is the serialization of the
parsed `URL` object, or `none` when unset.  `content` distinguishes the three
JavaScript values the field can hold: `some (some s)` a string, `some none` the
initial `null`, `none` the `undefined` read past the end of `sourcesContent`
(see `decodeSourceMapSources`). -/
structure DecodedSource where
  url : Option String
  content : Option (Option String)
  ignored : Bool
deriving Repr, DecidableEq

/-- A decoded mapping (source lines 394–436). -/
structure DecodedMapping where
  generatedLine : Nat
  generatedColumn : Int
  originalSource : Option DecodedSource
  originalLine : Option Int
  originalColumn : Option Int
  name : Option String
deriving Repr, DecidableEq

/-- A decoded source map (source lines 148–163). -/
structure DecodedSourceMap where
  file : Option String
  sources : List DecodedSource
  mappings : List DecodedMapping
deriving Repr, DecidableEq

/-! ## Decoding source-map sources (source lines 664–731) -/

/-- The `urlPre` computation of `decodeSourceMapSources` (steps 2–3).
When the root contains no `/`, the source calls `concatenate(sourceRoot, "/")`:
the infra `concatenate` expects a list, so the string is spread into its code
points and joined with `"/"` as the separator. -/
def sourceURLPrefixOf (sourceRoot : Option String) : String :=
  match sourceRoot with
  | none => ""
  | some root =>
    if root.data.contains '/' then
      -- index of the last occurrence of '/', substring from 0 to index + 1
      let index := root.data.length - 1 - (root.data.reverse.indexOf '/')
      String.mk (root.data.take (index + 1))
    else concatenate (strToList root) "/"

/-- The loop body of `decodeSourceMapSources` (step 4) for one index.  `parse`
models `URL.parse(·, baseURL)` (an external collaborator), `inOp` models the
JavaScript `in` operator applied to the external `@miyauci/infra` `List` class
(`index in ignoredSources`, source line 718), whose semantics depends on that
class's internals and is therefore left abstract. -/
def decodeOneSource (parse : String → Option String)
    (inOp : Nat → List (Option Nat) → Bool) (urlPre : String)
    (sourcesContent : List (Option String)) (ignoredSources : List (Option Nat))
    (index : Nat) (source : Option String) : DecodedSource :=
  -- step 4.1: url null, content null, ignored false
  let url : Option String :=
    match source with
    | none => none
    | some s =>
      -- step 4.2.1: source := concatenate(urlPre, source); the prefix is
      -- spread into code points and the source string is the separator
      let s' := concatenate (strToList urlPre) s
      -- steps 4.2.2–4.2.4: parse; on failure optionally report an error (a no-op)
      -- and leave the URL unset
      parse s'
  -- step 4.3: if index is in ignoredSources (the JavaScript in operator)
  let ignored := inOp index ignoredSources
  -- step 4.4: the guard is index <= sourcesContent.size, so at index = size the
  -- read sourcesContent[index] is out of bounds and yields undefined (none)
  let content : Option (Option String) :=
    if index ≤ sourcesContent.length then sourcesContent.get? index
    else some none
  { url := url, content := content, ignored := ignored }

/-- Embedding of `decodeSourceMapSources` (source lines 664–731).  The loop
`for (const index of sources.indices())` appends one decoded source per index. -/
def decodeSourceMapSources (parse : String → Option String)
    (inOp : Nat → List (Option Nat) → Bool) (sourceRoot : Option String)
    (sources : List (Option String)) (sourcesContent : List (Option String))
    (ignoredSources : List (Option Nat)) : List DecodedSource :=
  let urlPre := sourceURLPrefixOf sourceRoot
  (List.range sources.length).map fun index =>
    decodeOneSource parse inOp urlPre sourcesContent ignoredSources
      index (sources.getD index none)

/-! ## Decoding source-map mappings (source lines 441–597) -/

/-- The allowed-character check of `decodeSourceMapMappings` (step 2): only
`,`, `;`, `0`–`9`, `A`–`Z`, `a`–`z`, `+` and `/` (the regex
`/^[,;0-9A-Za-z+\x2f]*$/`). -/
def mappingsAllowedChars (mappings : String) : Bool :=
  mappings.data.all fun c =>
    (c == ',') || (c == ';') ||
    (decide ('0' ≤ c) && decide (c ≤ '9')) ||
    (decide ('A' ≤ c) && decide (c ≤ 'Z')) ||
    (decide ('a' ≤ c) && decide (c ≤ 'z')) ||
    (c == '+') || (c == '/')

/-- Embedding of `decodeSourceMapMappings` (source lines 441–597).  After the two character
checks, the source's outer loop is `while (groups.size < generatedLine)` with
`generatedLine` starting at `0` — the comparison is inverted relative to its own
comment ("While generatedLine is less than groups's size"), so the guard is false
on entry and the loop body never runs.  If the guard could hold, the body would
read `groups[generatedLine]` out of bounds (`undefined`) and crash inside
`strictlySplit`, modelled as `.error ()`; that branch is decidably unreachable
(`groups.length < 0`).  The accumulated `decodedMappings` list is returned empty.
The `names` and `sources` parameters are only read inside the dead body. -/
def decodeSourceMapMappings (mappings : String) (_names : List String)
    (_sources : List DecodedSource) : Except Unit (List DecodedMapping) :=
  -- step 1: if mappings is not an ASCII string, throw
  if ¬ isAsciiString mappings then .error ()
  -- step 2: if mappings contains a disallowed code unit, throw
  else if ¬ mappingsAllowedChars mappings then .error ()
  else
    -- step 4: groups := strictlySplit(mappings, ";")
    let groups := strictlySplit mappings ';'
    -- step 5: generatedLine := 0
    let generatedLine := 0
    -- step 10: while (groups.size < generatedLine)
    if groups.length < generatedLine then .error () else .ok []

/-! ## The parsed-JSON value model and the field extractors (source lines 257–389)

The generic Infra value (`@miyauci/infra`'s `List`/`Map` holding parsed JSON):
strings, numbers, booleans, null, lists and string-keyed ordered maps.  JSON
numbers are modelled as exact rationals. -/

inductive JSValue where
  | str : String → JSValue
  | num : ℚ → JSValue
  | bool : Bool → JSValue
  | null : JSValue
  | list : List JSValue → JSValue
  | map : List (String × JSValue) → JSValue

/-- An Infra ordered map with string keys, as an association list. -/
def InfraMap := List (String × JSValue)

/-- Embedding of `jsonMap.get(key)`: `none` when the key does not exist. -/
def mapGet (m : InfraMap) (key : String) : Option JSValue :=
  (List.find? (fun p => p.1 == key) m).map (fun p => p.2)

/-- Embedding of `jsonMap.exists(key)`. -/
def mapExists (m : InfraMap) (key : String) : Bool :=
  (mapGet m key).isSome

/-- Check `typeof value === "string"` on an optionally-present entry
(an absent entry reads as `undefined`, which is not a string). -/
def isStringEntry : Option JSValue → Bool
  | some (.str _) => true
  | _ => false

/-- Check `value instanceof List` on an optionally-present entry. -/
def isListEntry : Option JSValue → Bool
  | some (.list _) => true
  | _ => false

/-- Read `jsonMap.get(key) as string` after `isStringEntry` has been checked; a
non-string value never reaches the default branch. -/
def getStrD : Option JSValue → String
  | some (.str s) => s
  | _ => ""

/-- Embedding of `optionallyReportError()` (source line 389): a no-op. -/
def optionallyReportError : Unit := ()

/-- Embedding of `optionallyGetString(key, jsonMap)` (source lines 260–276). -/
def optionallyGetString (key : String) (jsonMap : InfraMap) : Option String :=
  match mapGet jsonMap key with
  | none => none
  | some (.str s) => some s
  | some _ =>
    -- optionally report an error and return null
    let _ := optionallyReportError
    none

/-- Embedding of `optionallyGetListString(key, jsonMap)` (source lines 281–308): each
non-string item is soft-replaced by the empty string. -/
def optionallyGetListString (key : String) (jsonMap : InfraMap) : List String :=
  match mapGet jsonMap key with
  | none => []
  | some (.list items) =>
    items.map fun jsonItem =>
      match jsonItem with
      | .str s => s
      | _ => ""
  | some _ =>
    let _ := optionallyReportError
    []

/-- Embedding of `optionallyGetListOfOptionallyStrings(key, jsonMap)` (source lines 313–346):
each non-string item is soft-replaced by null. -/
def optionallyGetListOfOptionallyStrings (key : String) (jsonMap : InfraMap) :
    List (Option String) :=
  match mapGet jsonMap key with
  | none => []
  | some (.list items) =>
    items.map fun jsonItem =>
      match jsonItem with
      | .str s => some s
      | _ => none
  | some _ =>
    let _ := optionallyReportError
    []

/-- Embedding of `optionallyGetListArrayIndex(key, jsonMap)` (source lines 351–384): an item
passes `0 <= jsonItem && Number.isInteger(jsonItem)` exactly when it is a
non-negative integer number (`Number.isInteger` is false on every non-number,
including the values `0 <= x` coerces); every other item is soft-replaced by
null. -/
def optionallyGetListArrayIndex (key : String) (jsonMap : InfraMap) :
    List (Option Nat) :=
  match mapGet jsonMap key with
  | none => []
  | some (.list items) =>
    items.map fun jsonItem =>
      match jsonItem with
      | .num q => if 0 ≤ q ∧ q.den = 1 then some q.num.toNat else none
      | _ => none
  | some _ =>
    let _ := optionallyReportError
    []

/-- The step-1 version check of `decodeSourceMap`:
`jsonMap.exists("version") && jsonMap.get("version") === 3`. -/
def isVersion3 : Option JSValue → Bool
  | some (.num q) => decide (q = 3)
  | _ => false

/-- Embedding of `decodeSourceMap(jsonMap, baseURL)` (source lines 205–255).  `parse` models
`URL.parse(·, baseURL)` and `inOp` the `in` operator, as in
`decodeSourceMapSources`.  Note step 6 extracts `"sources"` with the
list-of-strings extractor (`optionallyGetListString`), so null entries have
already been replaced by `""` and every entry handed to
`decodeSourceMapSources` is non-null. -/
def decodeSourceMap (parse : String → Option String)
    (inOp : Nat → List (Option Nat) → Bool) (jsonMap : InfraMap) :
    Except Unit DecodedSourceMap :=
  -- step 1: if jsonMap["version"] does not exist or is not 3, optionally report
  -- an error (a no-op)
  let _ := if isVersion3 (mapGet jsonMap "version") then () else optionallyReportError
  -- step 2: if jsonMap["mappings"] does not exist or is not a string, throw
  if ¬ isStringEntry (mapGet jsonMap "mappings") then .error ()
  -- step 3: if jsonMap["sources"] does not exist or is not a list, throw
  else if ¬ isListEntry (mapGet jsonMap "sources") then .error ()
  else
    -- step 5: file
    let file := optionallyGetString "file" jsonMap
    -- step 6: sources
    let sources := decodeSourceMapSources parse inOp
      (optionallyGetString "sourceRoot" jsonMap)
      ((optionallyGetListString "sources" jsonMap).map some)
      (optionallyGetListOfOptionallyStrings "sourcesContent" jsonMap)
      (optionallyGetListArrayIndex "ignoreList" jsonMap)
    -- step 7: mappings
    match decodeSourceMapMappings (getStrD (mapGet jsonMap "mappings"))
        (optionallyGetListString "names" jsonMap) sources with
    | .error _ => .error ()
    | .ok mappings =>
      -- step 8
      .ok { file := file, sources := sources, mappings := mappings }

/-! ## Concrete instantiations of the external collaborators -/

/-- Modelled from the spec: WHATWG URL parsing against the base URL `file:///`
(§4.3 step 2 and §6) is an external collaborator, not part of this repository.
For the inputs arising in the claims — relative path strings without a scheme,
drive letter, dot segments or special characters, including the empty string —
resolution against `file:///` serializes to `file:///` followed by the input. -/
def fileURLParse (s : String) : Option String :=
  some ("file:///" ++ s)

/-- One concrete semantics for the abstract `in` operator (never a member):
used only to instantiate theorems whose conclusions do not depend on it. -/
def inFalse : Nat → List (Option Nat) → Bool := fun _ _ => false

/-- Check of the all-or-none invariant on the original-location triple of a
decoded mapping. -/
def originalTripleConsistent (m : DecodedMapping) : Bool :=
  (m.originalSource.isSome && m.originalLine.isSome && m.originalColumn.isSome) ||
  (m.originalSource.isNone && m.originalLine.isNone && m.originalColumn.isNone)

end SourceMap

namespace SourceMapClaims

open SourceMap

/-- C1: on the scenario mappings string, with `names = []` and the one-element
source list resolved from `sources = ["helloworld.coffee"]` against the base URL
`file:///`, `decodeSourceMapMappings` completes without any hard error — but it
returns the EMPTY mapping list, not a non-empty one with a first record at
generated line 0 and column 0: the outer loop guard at source line 484 is
`groups.size < generatedLine` (inverted relative to its own comment), so the
decoding loop never executes. -/
theorem c1_scenario_empty :
    decodeSourceMapMappings "AAAA;AAAA,EAAA,OAAO,CAAC,GAAR,CAAY,aAAZ,CAAA,CAAA;AAAA" []
      (decodeSourceMapSources fileURLParse inFalse none [some "helloworld.coffee"] [] [])
      = .ok [] := rfl

/-- C3: the VLQ decoder's overflow guard at source line 644 compares the
accumulated value against the literal `231` (the spec's `2^31` with the exponent
lost in transcription), so the two-character segment `"gP"`, whose accumulated
value is `240` — far below `2^31 = 2147483648` — already throws a hard error,
refuting "throws if and only if the accumulated value reaches or exceeds 2^31". -/
theorem c3_overflow_threshold :
    decodeBase64VLQ "gP" 0 = .error () ∧ (240 : Nat) < 2 ^ 31 :=
  ⟨rfl, by norm_num⟩

/-- C4: the VLQ round-trip fails inside the claimed range `[−2^30, 2^30]`: the
spec-described encoding of `240` is the segment `"gP"`, and decoding it from
position 0 throws a hard error (the mis-transcribed `231` overflow threshold of
source line 644) instead of returning `240` with the position at the end. -/
theorem c4_roundtrip_fails_at_240 :
    encodeBase64VLQ 240 = "gP" ∧
    decodeBase64VLQ (encodeBase64VLQ 240) 0 = .error () ∧
    -(2 : Int) ^ 30 ≤ 240 ∧ (240 : Int) ≤ 2 ^ 30 :=
  ⟨rfl, rfl, by norm_num, by norm_num⟩

/-- C5: whenever the character at the cursor position decodes (per the base64
alphabet) to a byte with the sign bit set (bit 0), no continuation bit (bit 5)
and magnitude bits 1–4 all zero, `decodeBase64VLQ` returns exactly `−2147483648`
and advances the position by one. -/
theorem c5_negative_zero (segment : String) (pos : Nat) (c : Char)
    (hc : segment.data.get? pos = some c)
    (hsign : b64Value c &&& 0x01 = 1)
    (hcont : b64Value c &&& 0x20 = 0)
    (hmag : (b64Value c >>> 1) &&& 0x0F = 0) :
    decodeBase64VLQ segment pos = .ok (some (-2147483648), pos + 1) := by
  have h32 : (b64Value c &&& 0x20 = 0x20) = False := by
    simp [hcont]
  have hLoop : ∀ tail : List Char,
      vlqLoop tail ((b64Value c >>> 1) &&& 0x0F) 16 (b64Value c) = .ok (0, tail) := by
    intro tail
    cases tail <;> simp [vlqLoop, h32, hmag]
  simp only [decodeBase64VLQ, hc, hLoop]
  have hsign' : (b64Value c &&& 0x01 = 0) = False := by simp [hsign]
  simp [hsign', Nat.sub_self]
  simpa [Nat.and_one_is_mod] using hsign

/-- Witness for C5 at the single-character segment `"B"`. -/
theorem c5_negative_zero_witness :
    decodeBase64VLQ "B" 0 = .ok (some (-2147483648), 1) :=
  c5_negative_zero "B" 0 'B' rfl rfl rfl rfl

/-- C6: with base URL `file:///`, `sourceRoot = "lib"` and
`sources = ["a.js", null]`, the URL prefix computed by `decodeSourceMapSources`
is `"l/i/b"` (the infra `concatenate(list, separator)` spreads the root string
into code points and joins them with `"/"`), and the string handed to the URL
parser for entry 0 interleaves that prefix's code points with the source string
`"a.js"` as separator — so entry 0 resolves to
`file:///la.js/a.jsia.js/a.jsb`, not the claimed `<base>/lib/a.js`; entry 1's
URL stays unset as claimed. -/
theorem c6_sourceroot_lib :
    sourceURLPrefixOf (some "lib") = "l/i/b" ∧
    (decodeSourceMapSources fileURLParse inFalse (some "lib")
        [some "a.js", none] [] []).map (fun s => s.url)
      = [some "file:///la.js/a.jsia.js/a.jsb", none] :=
  ⟨rfl, rfl⟩

/-- C2 (counterexample): a JSON map whose `mappings` entry is the well-shaped
string `"!"` and whose `sources` entry is the well-shaped empty list, with no
`version` entry at all, still makes `decodeSourceMap` throw a hard error (the
disallowed-character check inside the mappings decoder) — so "for every input
where both fields are well-shaped … decoding continues and a complete
DecodedSourceMap is returned" is false as stated. -/
theorem c2_complete_map_refuted :
    (mapGet [("mappings", JSValue.str "!"), ("sources", JSValue.list [])]
        "version").isNone = true ∧
    isStringEntry (mapGet [("mappings", JSValue.str "!"), ("sources", JSValue.list [])]
        "mappings") = true ∧
    isListEntry (mapGet [("mappings", JSValue.str "!"), ("sources", JSValue.list [])]
        "sources") = true ∧
    decodeSourceMap fileURLParse inFalse
        [("mappings", JSValue.str "!"), ("sources", JSValue.list [])] = .error () :=
  ⟨rfl, rfl, rfl, rfl⟩

/-- C8: for every input, the list returned by `decodeSourceMapSources` has
exactly the length of the input `sources` list, and its `i`-th element is the
decoding of the `i`-th raw entry (one decoded source per raw entry, in order,
none dropped or added) — for any URL parser and any semantics of the abstract
`in` operator, hence in particular for malformed-but-list-shaped
`sourcesContent` and `ignoreList` values. -/
theorem c8_index_alignment (parse : String → Option String)
    (inOp : Nat → List (Option Nat) → Bool) (sourceRoot : Option String)
    (sources sourcesContent : List (Option String))
    (ignoredSources : List (Option Nat)) :
    (decodeSourceMapSources parse inOp sourceRoot sources sourcesContent
        ignoredSources).length = sources.length ∧
    ∀ i, i < sources.length →
      (decodeSourceMapSources parse inOp sourceRoot sources sourcesContent
          ignoredSources)[i]?
        = some (decodeOneSource parse inOp (sourceURLPrefixOf sourceRoot)
            sourcesContent ignoredSources i (sources.getD i none)) := by
  refine ⟨by simp [decodeSourceMapSources], ?_⟩
  intro i hi
  simp [decodeSourceMapSources, List.getElem?_map, List.getElem?_range hi]

/-- Witness for C8 on a one-element source list. -/
theorem c8_index_alignment_witness :
    (decodeSourceMapSources fileURLParse inFalse none [none] [] [])[0]?
      = some (decodeOneSource fileURLParse inFalse (sourceURLPrefixOf none) [] [] 0
          ([(none : Option String)].getD 0 none)) :=
  (c8_index_alignment fileURLParse inFalse none [none] [] []).2 0 (by decide)

/-- C9: every decoded mapping in a successfully returned mapping list has its
original-location triple all-present or all-absent together.  With the inverted
outer-loop guard of source line 484 the returned list is in fact always empty,
so the invariant holds for every element of it. -/
theorem c9_triple_all_or_none (mappings : String) (names : List String)
    (sources : List DecodedSource) (l : List DecodedMapping)
    (h : decodeSourceMapMappings mappings names sources = .ok l) :
    l.all originalTripleConsistent = true := by
  unfold decodeSourceMapMappings at h
  split at h
  · simp at h
  · split at h
    · simp at h
    · simp only [Nat.not_lt_zero, if_false, Except.ok.injEq] at h
      subst h
      rfl

/-- Witness for C9: the hypothesis is satisfiable (the empty mappings string
decodes successfully) and the invariant holds on the returned list. -/
theorem c9_triple_all_or_none_witness :
    ([] : List DecodedMapping).all originalTripleConsistent = true :=
  c9_triple_all_or_none "" [] [] [] rfl

/-- Hard-error characterization of the mappings decoder: it throws exactly when
the mappings string is not ASCII or contains a disallowed character. -/
theorem decodeSourceMapMappings_error_iff (m : String) (names : List String)
    (sources : List DecodedSource) :
    decodeSourceMapMappings m names sources = .error () ↔
      (isAsciiString m = false ∨ mappingsAllowedChars m = false) := by
  unfold decodeSourceMapMappings
  cases h1 : isAsciiString m <;> cases h2 : mappingsAllowedChars m <;>
    simp [h1, h2, Nat.not_lt_zero]

/-- C2 (amended): `decodeSourceMap` throws a hard error exactly when the
`mappings` entry is missing or not a string, the `sources` entry is missing or
not a list, or the mappings string fails the ASCII/allowed-character checks.
In particular the `version` entry never influences whether a hard error occurs,
and whenever both required fields are well-shaped and the mappings string passes
the character checks, a complete `DecodedSourceMap` is returned. -/
theorem c2_hard_error_iff (parse : String → Option String)
    (inOp : Nat → List (Option Nat) → Bool) (jsonMap : InfraMap) :
    decodeSourceMap parse inOp jsonMap = .error () ↔
      (isStringEntry (mapGet jsonMap "mappings") = false ∨
       isListEntry (mapGet jsonMap "sources") = false ∨
       isAsciiString (getStrD (mapGet jsonMap "mappings")) = false ∨
       mappingsAllowedChars (getStrD (mapGet jsonMap "mappings")) = false) := by
  unfold decodeSourceMap
  cases hs : isStringEntry (mapGet jsonMap "mappings") <;>
    cases hl : isListEntry (mapGet jsonMap "sources") <;>
    simp [hs, hl]
  cases hmm : decodeSourceMapMappings (getStrD (mapGet jsonMap "mappings"))
      (optionallyGetListString "names" jsonMap)
      (decodeSourceMapSources parse inOp (optionallyGetString "sourceRoot" jsonMap)
        ((optionallyGetListString "sources" jsonMap).map some)
        (optionallyGetListOfOptionallyStrings "sourcesContent" jsonMap)
        (optionallyGetListArrayIndex "ignoreList" jsonMap)) with
  | error u =>
    cases u
    simp [hmm]
    exact (decodeSourceMapMappings_error_iff _ _ _).1 hmm
  | ok mp =>
    simp [hmm]
    have herr : ¬ (isAsciiString (getStrD (mapGet jsonMap "mappings")) = false ∨
        mappingsAllowedChars (getStrD (mapGet jsonMap "mappings")) = false) := by
      intro hcon
      have h2 := (decodeSourceMapMappings_error_iff (getStrD (mapGet jsonMap "mappings"))
        (optionallyGetListString "names" jsonMap)
        (decodeSourceMapSources parse inOp (optionallyGetString "sourceRoot" jsonMap)
          ((optionallyGetListString "sources" jsonMap).map some)
          (optionallyGetListOfOptionallyStrings "sourcesContent" jsonMap)
          (optionallyGetListArrayIndex "ignoreList" jsonMap))).2 hcon
      rw [hmm] at h2
      exact absurd h2 (by simp)
    simp only [not_or] at herr
    exact ⟨by simpa using herr.1, by simpa using herr.2⟩

/-- Collecting a sequence of code points is taking the longest satisfying run;
the unconsumed suffix is the corresponding drop. -/
theorem collectSequenceCodePoint_eq (cond : Char → Bool) (l : List Char) :
    collectSequenceCodePoint cond l = (l.takeWhile cond, l.dropWhile cond) := by
  induction l with
  | nil => rfl
  | cons c rest ih =>
    simp only [collectSequenceCodePoint, List.takeWhile_cons, List.dropWhile_cons, ih]
    cases h : cond c <;> simp [h]

/-- Dropping the run of non-delimiter code points leaves either nothing or a
suffix starting with the delimiter. -/
theorem dropWhile_head_eq (d : Char) (l : List Char) :
    l.dropWhile (fun c => c != d) = [] ∨
    ∃ rest, l.dropWhile (fun c => c != d) = d :: rest := by
  induction l with
  | nil => exact Or.inl rfl
  | cons c rest ih =>
    by_cases h : c = d
    · subst h
      exact Or.inr ⟨rest, by simp [List.dropWhile_cons]⟩
    · simpa [List.dropWhile_cons, h] using ih

/-- Dropping a run never lengthens a list. -/
theorem length_dropWhile_le (p : Char → Bool) (l : List Char) :
    (l.dropWhile p).length ≤ l.length := by
  induction l with
  | nil => simp
  | cons c rest ih =>
    by_cases h : p c
    · simp only [List.dropWhile_cons, h, if_true]
      exact Nat.le_succ_of_le ih
    · simp [List.dropWhile_cons, h]

/-- A collected token contains no delimiter. -/
theorem count_takeWhile_ne (d : Char) (l : List Char) :
    (l.takeWhile (fun c => c != d)).count d = 0 :=
  List.count_eq_zero.2 fun hmem => by
    have := List.mem_takeWhile_imp hmem
    simp at this

/-- Specification of the `strictlySplit` loop, in suffix form: entered at a
suffix that is empty or starts with the delimiter (the invariant of its call
sites) and with sufficient fuel, it produces one token more than the number of
delimiters in the suffix, and its last token is the empty string. -/
theorem splitLoop_spec (d : Char) : ∀ (fuel : Nat) (l : List Char),
    l.length < fuel → (l = [] ∨ ∃ rest, l = d :: rest) →
    (splitLoop d fuel l).length = l.count d + 1 ∧
    (splitLoop d fuel l).getLast? = some "" := by
  intro fuel
  induction fuel with
  | zero => exact fun l h _ => absurd h (Nat.not_lt_zero _)
  | succ fuel ih =>
    intro l hlen hgood
    rcases hgood with h | ⟨rest, h⟩
    · subst h
      simp [splitLoop]
    · subst h
      simp only [splitLoop, collectSequenceCodePoint_eq]
      have hRlen : (rest.dropWhile (fun c => c != d)).length < fuel :=
        lt_of_le_of_lt (length_dropWhile_le _ _) (Nat.lt_of_succ_lt_succ (by simpa using hlen))
      obtain ⟨ihlen, ihlast⟩ := ih (rest.dropWhile (fun c => c != d)) hRlen
        (dropWhile_head_eq d rest)
      have hcount : rest.count d = (rest.dropWhile (fun c => c != d)).count d := by
        conv_lhs => rw [← List.takeWhile_append_dropWhile (fun c => c != d) rest]
        rw [List.count_append, count_takeWhile_ne, Nat.zero_add]
      constructor
      · simp only [List.length_cons, ihlen, List.count_cons_self, hcount]
      · cases hsp : splitLoop d fuel (rest.dropWhile (fun c => c != d)) with
        | nil => rw [hsp] at ihlen; simp at ihlen
        | cons a as =>
          rw [hsp] at ihlast
          rw [List.getLast?_cons_cons]
          exact ihlast

/-- C10: for every input string and single-character delimiter, `strictlySplit`
returns one token per delimiter occurrence plus two — one more than the
Infra-standard strictly-split, because the loop guard `position <= endOfInput`
runs one extra iteration — and the last token is always the empty string. -/
theorem c10_strictlySplit (s : String) (d : Char) :
    (strictlySplit s d).length = s.data.count d + 2 ∧
    (strictlySplit s d).getLast? = some "" := by
  unfold strictlySplit
  simp only [collectSequenceCodePoint_eq]
  have hRlen : (s.data.dropWhile (fun c => c != d)).length < s.data.length + 1 :=
    Nat.lt_succ_of_le (length_dropWhile_le _ _)
  obtain ⟨hlen, hlast⟩ := splitLoop_spec d (s.data.length + 1)
    (s.data.dropWhile (fun c => c != d)) hRlen (dropWhile_head_eq d s.data)
  have hcount : s.data.count d = (s.data.dropWhile (fun c => c != d)).count d := by
    conv_lhs => rw [← List.takeWhile_append_dropWhile (fun c => c != d) s.data]
    rw [List.count_append, count_takeWhile_ne, Nat.zero_add]
  constructor
  · simp only [List.length_cons, hlen, hcount]
  · cases hsp : splitLoop d (s.data.length + 1) (s.data.dropWhile (fun c => c != d)) with
    | nil => rw [hsp] at hlen; simp at hlen
    | cons a as =>
      rw [hsp] at hlast
      rw [List.getLast?_cons_cons]
      exact hlast

end SourceMapClaims

/-! Sanity checks: the first four mirror the repository's own `decodeBase64VLQ`
unit-test table; the rest evaluate the embedding on the concrete inputs discussed
in the development. -/

example : SourceMap.decodeBase64VLQ "A" 0 = .ok (some 0, 1) := rfl
example : SourceMap.decodeBase64VLQ "C" 0 = .ok (some 1, 1) := rfl
example : SourceMap.decodeBase64VLQ "O" 0 = .ok (some 7, 1) := rfl
example : SourceMap.decodeBase64VLQ "B" 0 = .ok (some (-2147483648), 1) := rfl
example : SourceMap.decodeBase64VLQ "gP" 0 = .error () := rfl
example : SourceMap.encodeBase64VLQ 240 = "gP" := rfl
example : SourceMap.decodeBase64VLQ "" 0 = .ok (none, 0) := rfl
example : SourceMap.encodeBase64VLQ 17 = "iB" := rfl
example : SourceMap.decodeBase64VLQ "iB" 0 = .ok (some 17, 2) := rfl
example : SourceMap.encodeBase64VLQ (-17) = "jB" := rfl
example : SourceMap.decodeBase64VLQ "jB" 0 = .ok (some (-17), 2) := rfl
example : SourceMap.strictlySplit "a;b" ';' = ["a", "b", ""] := rfl
example : SourceMap.strictlySplit "" ';' = ["", ""] := rfl
example : SourceMap.strictlySplit ";;" ';' = ["", "", "", ""] := rfl
example : SourceMap.sourceURLPrefixOf (some "lib") = "l/i/b" := rfl
example : SourceMap.sourceURLPrefixOf (some "lib/src") = "lib/" := rfl
example : SourceMap.sourceURLPrefixOf none = "" := rfl
example : SourceMap.concatenate (SourceMap.strToList "l/i/b") "a.js"
    = "la.js/a.jsia.js/a.jsb" := rfl
example : SourceMap.decodeSourceMapMappings
    "AAAA;AAAA,EAAA,OAAO,CAAC,GAAR,CAAY,aAAZ,CAAA,CAAA;AAAA" [] [] = .ok [] := rfl
example : SourceMap.decodeSourceMapMappings "é" [] [] = .error () := rfl
example : SourceMap.decodeSourceMapMappings "!" [] [] = .error () := rfl
example : SourceMap.decodeSourceMap SourceMap.fileURLParse SourceMap.inFalse
    [("mappings", .str "!"), ("sources", .list [])] = .error () := rfl
example : SourceMap.decodeSourceMap SourceMap.fileURLParse SourceMap.inFalse
    [("mappings", .str ";"), ("sources", .list [.str "a", .null])]
    = .ok { file := none,
            sources := [⟨some "file:///", none, false⟩, ⟨some "file:///", some none, false⟩],
            mappings := [] } := rfl
example : (SourceMap.decodeSourceMapSources SourceMap.fileURLParse SourceMap.inFalse
    (some "lib") [some "a.js", none] [] []).map (fun s => s.url)
    = [some "file:///la.js/a.jsia.js/a.jsb", none] := rfl
